import Mathlib

/-!
Verification of the webcam-frontend device-state synchronization logic.

The TypeScript pages are shallowly embedded: JS objects used as string-keyed
maps become association lists with unique keys (a JS object cannot hold a
duplicate key), `undefined | string` fields become `Option String`, and the
relevant handlers become pure functions from previous state and incoming
message to new state plus the list of warnings they surface via `setWarning`.
-/

namespace WebcamFrontend

/-- Per-camera status, from the `CameraStatus` interface of the camera pages.
Numeric JS fields (`save_interval`, `camera_index`) are only carried around by
the embedded code, never computed with, so they are modelled as `Int`. -/
structure CameraStatus where
  preview_status : String
  storage_status : String
  save_interval : Int
  current_folder : Option String
  camera_type : String
  camera_index : Int
deriving DecidableEq, Repr

/-- The device-state map `Record<string, CameraStatus>`: an association list
whose keys are unique (JS object semantics); iteration order is insertion
order, as with `Object.entries`. -/
def StateMap : Type := List (String × CameraStatus)

instance : DecidableEq StateMap := by
  unfold StateMap
  infer_instance

/-- JS property read `m[k]`: the value at the first (only) occurrence of `k`. -/
def lookupKey : List (String × CameraStatus) → String → Option CameraStatus
  | [], _ => none
  | (k', v) :: rest, k => if k' = k then some v else lookupKey rest k

/-- JS property write `m[k] = v`: replace the value at `k` in place if the key
exists, otherwise append the new key at the end (JS insertion order). -/
def setKey : List (String × CameraStatus) → String → CameraStatus → List (String × CameraStatus)
  | [], k, v => [(k, v)]
  | (k', v') :: rest, k, v => if k' = k then (k, v) :: rest else (k', v') :: setKey rest k v

/-- JS `a || b` for an optional string `a`: `b` when `a` is `undefined` or
the empty string (falsy), else `a`. -/
def strOr (o : Option String) (d : String) : String :=
  match o with
  | some s => if s = "" then d else s
  | none => d

/-- JS truthiness of an optional string. -/
def strTruthy (o : Option String) : Bool :=
  match o with
  | some s => s ≠ ""
  | none => false

/-- Parsed JSON status snapshot, as consumed by the status branches of
`handleWebSocketMessage` (fields the embedded handlers read). -/
structure Snapshot where
  cameras : List (String × CameraStatus)
  stop_reason : Option String
  camera_key : Option String
deriving DecidableEq, Repr

/-- Emission condition of the "Preview stopped unexpectedly" warning in the
multi-camera select variant (route.ts `handleWebSocketMessage`, lines
385–397): the entry's key is the selected camera, the incoming status is
stopped, and the previous map held it running. -/
def warnCond (selected : Option String) (prev : List (String × CameraStatus))
    (e : String × CameraStatus) : Prop :=
  selected = some e.1 ∧ e.2.preview_status = "stopped" ∧
    (lookupKey prev e.1).map CameraStatus.preview_status = some "running"

instance (selected : Option String) (prev : List (String × CameraStatus))
    (e : String × CameraStatus) : Decidable (warnCond selected prev e) := by
  unfold warnCond
  infer_instance

/-- Loop body of route.ts lines 387–396: fold each snapshot entry into the
accumulating copy of the map (`newStatuses[key] = camStatus`), emitting the
warning when `warnCond` holds against the map `prev` captured at entry. -/
def reconcileGo (selected : Option String) (reason : String)
    (prev : List (String × CameraStatus)) :
    List (String × CameraStatus) → List (String × CameraStatus) →
    List (String × String) → List (String × CameraStatus) × List (String × String)
  | [], acc, ws => (acc, ws)
  | e :: rest, acc, ws =>
    reconcileGo selected reason prev rest (setKey acc e.1 e.2)
      (if warnCond selected prev e then ws ++ [(e.1, reason)] else ws)

/-- Status reconciliation of the multi-camera select variant (route.ts
`handleWebSocketMessage`, lines 385–397): returns the updated map together
with the warnings emitted, each as a `(key, reason)` pair where the reason is
`status.stop_reason || "Unknown reason"` as in line 391. -/
def reconcile (selected : Option String) (prev : StateMap) (snap : Snapshot) :
    StateMap × List (String × String) :=
  reconcileGo selected (strOr snap.stop_reason "Unknown reason") prev snap.cameras prev []

/-- Status reconciliation of the camera page (src/app/camera/page.tsx,
`handleWebSocketMessage` lines 95–107): the whole map is replaced by
`status.cameras`, and a warning `(camera_key, stop_reason)` is surfaced
whenever both fields are truthy, independent of the previous state. -/
def reconcilePage (_prev : StateMap) (snap : Snapshot) :
    StateMap × List (String × String) :=
  (snap.cameras,
    match snap.stop_reason, snap.camera_key with
    | some r, some ck => if r ≠ "" ∧ ck ≠ "" then [(ck, r)] else []
    | _, _ => [])

/-- WebSocket `onClose` handler of both camera pages (page.tsx lines 53–63 and
route.ts lines 337–348): every tracked entry has `preview_status` and
`storage_status` forced to "stopped"; all other fields are spread unchanged. -/
def closedDowngrade (m : StateMap) : StateMap :=
  m.map (fun p => (p.1, { p.2 with preview_status := "stopped", storage_status := "stopped" }))

/-! ### Directory explorer: natural-order sort (file explorer page, lines 97–115) -/

/-- Directory entry, from the `FileItem` interface of the file explorer page. -/
structure FileItem where
  name : String
  path : String
  type : String
deriving DecidableEq, Repr

/-- A `\d` character of the comparator's regex `(\d+|\D+)`. -/
def isDigitCh (c : Char) : Bool := '0' ≤ c ∧ c ≤ '9'

/-- Splitting of a name into the maximal runs matched by `(\d+|\D+)/g`:
alternating maximal runs of digits and of non-digits. Structural fuel equals
the length of the list; each step consumes at least one character. -/
def splitRunsAux : Nat → List Char → List (List Char)
  | 0, _ => []
  | _, [] => []
  | fuel + 1, c :: cs =>
    (c :: cs.takeWhile (fun d => isDigitCh d = isDigitCh c)) ::
      splitRunsAux fuel (cs.dropWhile (fun d => isDigitCh d = isDigitCh c))

/-- `name.match(/(\d+|\D+)/g) || [name]`: the match is `null` exactly on the
empty string, in which case the fallback singleton `[name]` is used. -/
def natTokens (l : List Char) : List (List Char) :=
  if l = [] then [[]] else splitRunsAux l.length l

/-- Code-point lexicographic comparison of two character lists, returning a
negative, zero or positive number. The comparator below abstracts the host's
`localeCompare` as a parameter `lc`; this function is the concrete collation
instance used to evaluate it on ground inputs (host collations agree with it
on the lowercase ASCII names the claims compute with). -/
def lexCompare : List Char → List Char → Int
  | [], [] => 0
  | [], _ :: _ => -1
  | _ :: _, [] => 1
  | a :: as, b :: bs => if a < b then -1 else if b < a then 1 else lexCompare as bs

/-- Exact integer value of a maximal digit run. -/
def digitsVal (l : List Char) : Nat :=
  l.foldl (fun n c => 10 * n + (c.toNat - '0'.toNat)) 0

/-- A JS number as produced by `parseInt` on a digit run: a nonnegative
finite double — every such value is an integer, carried exactly — or
`Infinity`. (`NaN` never arises from a digit run.) -/
inductive JsNum where
  | finite (v : Nat)
  | inf
deriving DecidableEq, Repr

/-- Number of binary digits of the second argument (0 for 0). The first
argument is structural fuel: whenever `n < 2^fuel` the result is the true
bit length, characterized fuel-independently by `bitLen_le_iff`. -/
def bitLen : Nat → Nat → Nat
  | 0, _ => 0
  | fuel + 1, n => if n = 0 then 0 else bitLen fuel (n / 2) + 1

/-- Round-to-nearest, ties-to-even, of a natural number to 53 significant
bits: the IEEE-754 double rounding applied to nonnegative integers. Values
below 2^53 are exact. `fuel` bounds the bit length of `n` (the rounded
value never exceeds `2^(bitLen fuel n)`, so the same fuel serves the
overflow guard in `jsParseDigits`). -/
def roundNat (fuel n : Nat) : Nat :=
  let b := bitLen fuel n
  if b ≤ 53 then n
  else
    let k := b - 53
    let q := n / 2 ^ k
    let r := n % 2 ^ k
    let half := 2 ^ (k - 1)
    if r < half then q * 2 ^ k
    else if half < r then (q + 1) * 2 ^ k
    else (if q % 2 = 0 then q else q + 1) * 2 ^ k

/-- The double produced by `parseInt` from the exact integer value of a
digit run: rounded to 53 significant bits, overflowing to `Infinity` when
the rounded value reaches 2^1024. The overflow test is phrased through the
bit length — for adequate fuel, `bitLen fuel v ≤ 1024` is equivalent to
`v < 2^1024` by `bitLen_le_iff` — to keep ground evaluation cheap. -/
def jsParseDigits (fuel n : Nat) : JsNum :=
  let v := roundNat fuel n
  if bitLen fuel v ≤ 1024 then .finite v else .inf

/-- Sign-carrying model of the JS subtraction `numA - numB` the comparator
returns for unequal parsed numbers (`Infinity` compares above every finite
value; the `inf, inf` case is unreachable, the comparator only subtracts
unequal numbers). -/
def jsNumSub : JsNum → JsNum → Int
  | .finite a, .finite b => (a : Int) - (b : Int)
  | .inf, _ => 1
  | .finite _, .inf => -1

/-- `parseInt(token, 10)` on a token of the comparator: a maximal digit run
parses to its integer value rounded to an IEEE-754 double; a maximal
non-digit run (which contains no digit at all) parses to `NaN`, modelled as
`none`. The fuel `4 * length + 64` always exceeds the value's bit length
(a run of `len` digits is below `10^len < 2^(4*len)`, see
`digitsVal_lt_two_pow`), so the rounding is fuel-independent. -/
def tokenVal (l : List Char) : Option JsNum :=
  if l ≠ [] ∧ l.all isDigitCh then
    some (jsParseDigits (4 * l.length + 64) (digitsVal l))
  else none

/-- Token-by-token loop of the comparator (lines 102–113): both tokens
numeric compares their parsed double values, otherwise `localeCompare`
(abstracted as `lc`); the first nonzero comparison is returned; the loop
runs to the shorter token list. -/
def cmpTokens (lc : List Char → List Char → Int) :
    List (List Char) → List (List Char) → Int
  | a :: as, b :: bs =>
    match tokenVal a, tokenVal b with
    | some na, some nb =>
      if na ≠ nb then jsNumSub na nb else cmpTokens lc as bs
    | _, _ =>
      let c := lc a b
      if c ≠ 0 then c else cmpTokens lc as bs
  | _, _ => 0

/-- Natural-order comparison of two names (lines 99–114): tokenize both,
compare token-by-token, then fall back to `partsA.length - partsB.length ||
a.name.localeCompare(b.name)`. `lc` abstracts the host's `localeCompare`. -/
def natCompareNames (lc : List Char → List Char → Int) (a b : List Char) : Int :=
  let pa := natTokens a
  let pb := natTokens b
  let c := cmpTokens lc pa pb
  if c ≠ 0 then c
  else
    let d : Int := (pa.length : Int) - (pb.length : Int)
    if d ≠ 0 then d else lc a b

/-- The full listing comparator (lines 97–115): entries of different kinds
order the folder first; entries of the same kind compare by natural order of
their names under the host collation `lc`. -/
def compareItems (lc : List Char → List Char → Int) (a b : FileItem) : Int :=
  if a.type ≠ b.type then (if a.type = "folder" then -1 else 1)
  else natCompareNames lc a.name.data b.name.data

/-- The claim's reading of a numeric token: its exact integer value (this
definition follows the claim's words, not the source; the source rounds
through `parseInt`). -/
def specTokenVal (l : List Char) : Option Nat :=
  if l ≠ [] ∧ l.all isDigitCh then some (digitsVal l) else none

/-- Token comparison exactly as the claim words it: two numeric tokens
compare as (exact) integers, otherwise plain lexicographic comparison; the
first unequal token decides. -/
def specCmpTokens : List (List Char) → List (List Char) → Int
  | a :: as, b :: bs =>
    match specTokenVal a, specTokenVal b with
    | some na, some nb =>
      if na ≠ nb then (na : Int) - (nb : Int) else specCmpTokens as bs
    | _, _ =>
      let c := lexCompare a b
      if c ≠ 0 then c else specCmpTokens as bs
  | _, _ => 0

/-- Natural-order comparison exactly as the claim states it: token loop with
exact integer comparison, shorter token sequence first on a tie, plain
lexicographic comparison of the full names as the final tie-break. -/
def specNatCompareNames (a b : List Char) : Int :=
  let pa := natTokens a
  let pb := natTokens b
  let c := specCmpTokens pa pb
  if c ≠ 0 then c
  else
    let d : Int := (pa.length : Int) - (pb.length : Int)
    if d ≠ 0 then d else lexCompare a b

/-- Stable insertion of `x` after every already-placed element that does not
compare strictly greater, the order a stable `Array.prototype.sort` produces. -/
def insertSorted (cmp : FileItem → FileItem → Int) (x : FileItem) :
    List FileItem → List FileItem
  | [] => [x]
  | y :: ys => if cmp x y < 0 then x :: y :: ys else y :: insertSorted cmp x ys

/-- Stable sort by the comparator (JS `Array.prototype.sort` is stable). -/
def sortItems (cmp : FileItem → FileItem → Int) (l : List FileItem) : List FileItem :=
  l.foldl (fun acc x => insertSorted cmp x acc) []

/-! ### FrameDecoder (camera pages, blob branch of `handleWebSocketMessage`)

The blob is read with `readAsBinaryString`, which maps each payload byte to
the character of its code, so a binary message is a `List Char`; decoding is
byte-for-byte exact iff it is exact on these characters. -/

/-- The line terminator of the frame header block. -/
def crlf : List Char := ['\r', '\n']

/-- The blank-line sentinel `"\r\n\r\n"` separating headers from payload. -/
def crlf2 : List Char := ['\r', '\n', '\r', '\n']

/-- Whether `s` begins with `pat` (JS `s.startsWith(pat)` on binary
strings). -/
def startsWithSeq : List Char → List Char → Bool
  | [], _ => true
  | _ :: _, [] => false
  | a :: as, b :: bs => a == b && startsWithSeq as bs

/-- Index of the first occurrence of `pat` in `s`, if any. -/
def firstIdxO (pat : List Char) : List Char → Option Nat
  | [] => if startsWithSeq pat ([] : List Char) then some 0 else none
  | c :: cs =>
    if startsWithSeq pat (c :: cs) then some 0
    else (firstIdxO pat cs).map (· + 1)

/-- JS `s.indexOf(pat)`: first occurrence or `-1`. -/
def jsIndexOf (s pat : List Char) : Int :=
  match firstIdxO pat s with
  | some i => (i : Int)
  | none => -1

/-- JS `s.slice(0, e)` with JS negative-index semantics. -/
def jsSliceTo (s : List Char) (e : Int) : List Char :=
  s.take (if e < 0 then (s.length + e).toNat else e.toNat)

/-- JS `s.slice(i)` with JS negative-index semantics. -/
def jsSliceFrom (s : List Char) (i : Int) : List Char :=
  s.drop (if i < 0 then (s.length + i).toNat else i.toNat)

/-- Splitting on a separator, JS `String.prototype.split` semantics.
Structural fuel: each step consumes at least the (nonempty) separator. -/
def splitSepAux (sep : List Char) : Nat → List Char → List (List Char)
  | 0, s => [s]
  | fuel + 1, s =>
    match firstIdxO sep s with
    | none => [s]
    | some i => s.take i :: splitSepAux sep fuel (s.drop (i + sep.length))

/-- JS `s.split(sep)`. -/
def jsSplit (s sep : List Char) : List (List Char) :=
  splitSepAux sep (s.length + 1) s

/-- The key-identifying header field scanned for, `"X-Camera-Key: "`. -/
def keyField : List Char := "X-Camera-Key: ".data

/-- The `": "` separator used by `header.split(": ")`. -/
def colonSp : List Char := [':', ' ']

/-- Header scan of the decoder (page.tsx lines 75–81): `cameraKey` starts as
`""`; the first header starting with the key field sets it to
`header.split(": ")[1]` and the loop breaks. A matching header necessarily
contains `": "`, so index 1 of the split exists; the `getD` default is never
used on such a header. -/
def scanKey : List (List Char) → List Char
  | [] => []
  | h :: t =>
    if startsWithSeq keyField h then (jsSplit h colonSp).getD 1 []
    else scanKey t

/-- The frame decoder (page.tsx lines 72–83, identical in the select variant
at route.ts lines 361–372): locate the blank-line sentinel, split the part
before it into header lines, scan them for the camera key, and take the
remainder of the message as the image payload. -/
def decodeFrame (msg : List Char) : String × List Char :=
  let headersEnd := jsIndexOf msg crlf2
  let headers := jsSplit (jsSliceTo msg headersEnd) crlf
  (String.mk (scanKey headers), jsSliceFrom msg (headersEnd + 4))

/-- CRLF-join of the header lines. -/
def joinSep (sep : List Char) : List (List Char) → List Char
  | [] => []
  | [h] => h
  | h :: h' :: t => h ++ sep ++ joinSep sep (h' :: t)

/-- The frame layout the claims quantify over (not taken from the decoder):
header lines joined by CRLF, the blank-line sentinel, then the raw payload. -/
def encodeFrame (hs : List (List Char)) (payload : List Char) : List Char :=
  joinSep crlf hs ++ crlf2 ++ payload

/-- Placeholder record produced by spreading a JS `undefined` map entry
(`{ ...prev[cameraKey], preview_status: "running" }` when `cameraKey` is not
yet tracked yields an object carrying only `preview_status`; the remaining
fields are defaulted here). -/
def blankStatus : CameraStatus :=
  { preview_status := "", storage_status := "", save_interval := 0,
    current_folder := none, camera_type := "", camera_index := 0 }

/-- Frame side effect on the state map (page.tsx lines 85–88, route.ts lines
374–377): the decoded key's entry is overwritten with a copy of itself whose
`preview_status` is `"running"`. -/
def frameUpdate (m : StateMap) (k : String) : StateMap :=
  setKey m k
    (match lookupKey m k with
     | some st => { st with preview_status := "running" }
     | none => { blankStatus with preview_status := "running" })

/-- Blob branch of the camera page (page.tsx lines 69–91): decode the frame;
if the key is truthy and an `<img>` ref is registered for it (`displayed`),
render the payload and mark the key's preview running. -/
def pageFrameStep (displayed : List String) (m : StateMap) (msg : List Char) : StateMap :=
  let key := (decodeFrame msg).1
  if key ≠ "" ∧ key ∈ displayed then frameUpdate m key else m

/-- Blob branch of the select variant (route.ts lines 357–378): the update
happens only when the decoded key equals the selected camera and the single
`<img>` ref is present. -/
def selFrameStep (selected : Option String) (refPresent : Bool)
    (m : StateMap) (msg : List Char) : StateMap :=
  let key := (decodeFrame msg).1
  if some key = selected ∧ refPresent then frameUpdate m key else m

/-! ### CommandClient: discovery retry, single-shot commands, deletion -/

/-- Device descriptor, from the `Camera` interface of the select variant. -/
structure Camera where
  camera_key : String
  type : String
  index : Int
  display_name : String
  model : String
  serial : String
  label : String
deriving DecidableEq, Repr

/-- Outcome of one `fetch("/py/cameras")` attempt: an `ok` response carrying
the parsed array, or a failure (non-ok response or thrown error) carrying the
message of the `Error` the catch block receives. An ok response whose body is
not an array behaves as `ok []` (the `Array.isArray(data) && data.length > 0`
check fails either way). -/
inductive FetchResult where
  | ok (data : List Camera)
  | err (msg : String)
deriving DecidableEq, Repr

/-- Observable effects of a `fetchCameras` run: number of requests issued,
arguments of the `setCameras` calls, arguments of the `setError` calls
(`none` models `setError(null)`), and the milliseconds of each inter-attempt
sleep. -/
structure DiscoveryTrace where
  requests : Nat
  camerasSet : List (List Camera)
  errorsSet : List (Option String)
  delays : List Nat
deriving DecidableEq, Repr

/-- The error surfaced when an ok response holds no cameras (line 466). -/
def noCamerasMsg : String := "No cameras found. Please connect a camera and try again."

/-- Trace of the ok-response exit of the retry loop (lines 461–468), shared
by both arms of `fetchTrace`: a non-empty array is stored via `setCameras`
and the error cleared, an empty (or non-array) body surfaces the no-cameras
error; either way the loop returns. -/
def okTrace (data : List Camera) : DiscoveryTrace :=
  if data.length > 0 then ⟨1, [data], [none], []⟩
  else ⟨1, [], [some noCamerasMsg], []⟩

/-- The retry loop of `fetchCameras` (route.ts lines 455–484). `resp n` is
the outcome of the n-th attempt; `left` is the number of attempts remaining
after the current one, so the `attempt === retries` check of line 475 is
`left = 0`. An ok response returns immediately with `okTrace`; a failed
attempt either surfaces its message (last attempt) or sleeps `delay` ms and
retries. -/
def fetchTrace (resp : Nat → FetchResult) (delay : Nat) :
    Nat → Nat → DiscoveryTrace
  | attempt, 0 =>
    match resp attempt with
    | .ok data => okTrace data
    | .err m => ⟨1, [], [some m], []⟩
  | attempt, left + 1 =>
    match resp attempt with
    | .ok data => okTrace data
    | .err _ =>
      let rest := fetchTrace resp delay (attempt + 1) left
      ⟨rest.requests + 1, rest.camerasSet, rest.errorsSet, delay :: rest.delays⟩

/-- The default retry bound of `fetchCameras(retries = 3, delay = 1000)`. -/
def discoveryRetries : Nat := 3

/-- `fetchCameras()` with its default arguments: first attempt is attempt 1,
with `discoveryRetries - 1` attempts remaining after it and 1000 ms between
attempts. -/
def fetchCameras (resp : Nat → FetchResult) : DiscoveryTrace :=
  fetchTrace resp 1000 1 (discoveryRetries - 1)

/-- Observable effects of a single command operation: requests issued and
`setError` calls. -/
structure CmdTrace where
  requests : Nat
  errorsSet : List (Option String)
deriving DecidableEq, Repr

/-- Outcome of a single command request. -/
inductive CmdResult where
  | ok
  | err (msg : String)
deriving DecidableEq, Repr

/-- `startPreview` (page.tsx lines 158–171): one POST, clear the error on
success, surface the failure otherwise; never retried. -/
def startPreviewTrace (r : CmdResult) : CmdTrace :=
  match r with
  | .ok => ⟨1, [none]⟩
  | .err m => ⟨1, [some m]⟩

/-- `stopPreview` (route.ts lines 551–566): one POST, clear the error on
success, surface the failure otherwise; no expected-stop marker or any other
state the status reconciler reads is written before or after the request. -/
def stopPreviewTrace (r : CmdResult) : CmdTrace :=
  match r with
  | .ok => ⟨1, [none]⟩
  | .err m => ⟨1, [some m]⟩

/-- `captureImage` (route.ts lines 599–614): one POST, never retried. -/
def captureImageTrace (r : CmdResult) : CmdTrace :=
  match r with
  | .ok => ⟨1, [none]⟩
  | .err m => ⟨1, [some m]⟩

/-- Observable effects of a deletion handler: requests issued, the listing
after the call, errors surfaced, and whether a fresh directory fetch was
triggered. -/
structure DeleteTrace where
  requests : Nat
  itemsAfter : List FileItem
  errorsSet : List String
  refetch : Bool
deriving DecidableEq, Repr

/-- `deleteFolder` (file explorer page, lines 138–149): a `confirm()` dialog
gates the request; on success the folder's entry is filtered out of the local
listing (no re-fetch); on failure the listing is untouched and the error
surfaced. -/
def deleteFolderRun (confirmed : Bool) (r : CmdResult) (items : List FileItem)
    (folderPath : String) : DeleteTrace :=
  if confirmed = false then ⟨0, items, [], false⟩
  else
    match r with
    | .ok => ⟨1, items.filter (fun it => it.path ≠ folderPath), [], false⟩
    | .err m => ⟨1, items, [m], false⟩

/-- `deleteFile` (file explorer page, lines 156–165): the DELETE request is
issued with no confirmation dialog; on success the current directory is
re-fetched (`fetchDirectory(path)`) and the listing itself is not filtered;
on failure the listing is untouched and the error surfaced. -/
def deleteFileRun (r : CmdResult) (items : List FileItem)
    (_filePath : String) : DeleteTrace :=
  match r with
  | .ok => ⟨1, items, [], true⟩
  | .err m => ⟨1, items, [m], false⟩

/-! ### Concrete fixtures used by witnesses and counterexamples -/

/-- A status with the preview running. -/
def stRun : CameraStatus :=
  { preview_status := "running", storage_status := "stopped", save_interval := 5,
    current_folder := none, camera_type := "picamera", camera_index := 0 }

/-- A status with the preview stopped. -/
def stStop : CameraStatus :=
  { preview_status := "stopped", storage_status := "stopped", save_interval := 5,
    current_folder := none, camera_type := "picamera", camera_index := 0 }

/-- A discovered camera used by concrete runs. -/
def camFix : Camera :=
  { camera_key := "cam1", type := "picamera", index := 0, display_name := "Pi",
    model := "m", serial := "s", label := "Pi Camera" }

/-! ### Lemmas about the map primitives -/

theorem lookupKey_setKey_self (m : List (String × CameraStatus)) (k : String)
    (v : CameraStatus) : lookupKey (setKey m k v) k = some v := by
  induction m with
  | nil => simp [setKey, lookupKey]
  | cons p rest ih =>
    by_cases h : p.1 = k
    · simp [setKey, lookupKey, h]
    · simpa [setKey, lookupKey, h] using ih

theorem lookupKey_setKey_ne (m : List (String × CameraStatus)) (k k' : String)
    (v : CameraStatus) (h : k' ≠ k) :
    lookupKey (setKey m k v) k' = lookupKey m k' := by
  induction m with
  | nil => simp [setKey, lookupKey, Ne.symm h]
  | cons p rest ih =>
    by_cases hp : p.1 = k
    · simp [setKey, lookupKey, hp, Ne.symm h]
    · by_cases hp' : p.1 = k'
      · simp [setKey, lookupKey, hp, hp', h]
      · simpa [setKey, lookupKey, hp, hp'] using ih

theorem setKey_eq_of_lookupKey (m : List (String × CameraStatus)) (k : String)
    (v : CameraStatus) (h : lookupKey m k = some v) : setKey m k v = m := by
  induction m with
  | nil => simp [lookupKey] at h
  | cons p rest ih =>
    by_cases hp : p.1 = k
    · simp only [lookupKey, hp, if_pos] at h
      obtain ⟨k1, v1⟩ := p
      simp_all [setKey]
    · simp only [lookupKey, hp, if_neg, not_false_iff] at h
      simp [setKey, hp, ih h]

/-- The map component of the reconciliation loop is the left fold of `setKey`
over the snapshot entries. -/
theorem reconcileGo_fst (sel : Option String) (r : String)
    (prev : List (String × CameraStatus)) (entries : List (String × CameraStatus))
    (acc : List (String × CameraStatus)) (ws : List (String × String)) :
    (reconcileGo sel r prev entries acc ws).1 =
      entries.foldl (fun m e => setKey m e.1 e.2) acc := by
  induction entries generalizing acc ws with
  | nil => simp [reconcileGo]
  | cons e rest ih => simp [reconcileGo, ih]

/-- The warnings of the reconciliation loop are the entries passing
`warnCond`, in snapshot order, each paired with the computed reason. -/
theorem reconcileGo_snd (sel : Option String) (r : String)
    (prev : List (String × CameraStatus)) (entries : List (String × CameraStatus))
    (acc : List (String × CameraStatus)) (ws : List (String × String)) :
    (reconcileGo sel r prev entries acc ws).2 =
      ws ++ entries.filterMap
        (fun e => if warnCond sel prev e then some (e.1, r) else none) := by
  induction entries generalizing acc ws with
  | nil => simp [reconcileGo]
  | cons e rest ih =>
    by_cases hc : warnCond sel prev e
    · simp [reconcileGo, hc, ih]
    · simp [reconcileGo, hc, ih]

theorem lookupKey_foldl_not_mem (entries : List (String × CameraStatus))
    (acc : List (String × CameraStatus)) (k : String)
    (h : k ∉ entries.map Prod.fst) :
    lookupKey (entries.foldl (fun m e => setKey m e.1 e.2) acc) k =
      lookupKey acc k := by
  induction entries generalizing acc with
  | nil => rfl
  | cons e rest ih =>
    simp only [List.map_cons, List.mem_cons] at h
    push_neg at h
    simpa [List.foldl_cons, ih _ h.2] using
      lookupKey_setKey_ne acc e.1 k e.2 h.1

theorem lookupKey_foldl_mem (entries : List (String × CameraStatus))
    (acc : List (String × CameraStatus)) (k : String) (v : CameraStatus)
    (hnd : (entries.map Prod.fst).Nodup) (h : (k, v) ∈ entries) :
    lookupKey (entries.foldl (fun m e => setKey m e.1 e.2) acc) k = some v := by
  induction entries generalizing acc with
  | nil => simp at h
  | cons e rest ih =>
    simp only [List.map_cons, List.nodup_cons] at hnd
    rcases List.mem_cons.mp h with he | he
    · subst he
      have hk : k ∉ rest.map Prod.fst := by simpa using hnd.1
      rw [List.foldl_cons, lookupKey_foldl_not_mem rest _ k hk]
      exact lookupKey_setKey_self acc k v
    · rw [List.foldl_cons]
      exact ih _ hnd.2 he

theorem foldl_setKey_id (entries : List (String × CameraStatus))
    (m : List (String × CameraStatus))
    (h : ∀ e ∈ entries, lookupKey m e.1 = some e.2) :
    entries.foldl (fun m' e => setKey m' e.1 e.2) m = m := by
  induction entries with
  | nil => rfl
  | cons e rest ih =>
    have h1 := setKey_eq_of_lookupKey m e.1 e.2 (h e (List.mem_cons_self e rest))
    rw [List.foldl_cons, h1]
    exact ih fun x hx => h x (List.mem_cons_of_mem e hx)

theorem warn_filterMap_nil (sel : Option String) (r : String)
    (prev : List (String × CameraStatus)) (entries : List (String × CameraStatus))
    (h : ∀ e ∈ entries, ¬ warnCond sel prev e) :
    entries.filterMap
      (fun e => if warnCond sel prev e then some (e.1, r) else none) = [] := by
  induction entries with
  | nil => rfl
  | cons e rest ih =>
    have he : ¬ warnCond sel prev e := h e (List.mem_cons_self e rest)
    simpa [List.filterMap_cons, he] using
      ih fun x hx => h x (List.mem_cons_of_mem e hx)

theorem warn_not_mem_key (r : String) (prev : List (String × CameraStatus))
    (k : String) (entries : List (String × CameraStatus))
    (hk : k ∉ entries.map Prod.fst) :
    entries.filterMap
      (fun e => if warnCond (some k) prev e then some (e.1, r) else none) = [] := by
  refine warn_filterMap_nil _ _ _ _ fun e he hc => ?_
  have : k = e.1 := by simpa using hc.1
  exact hk (this ▸ List.mem_map_of_mem Prod.fst he)

/-- With unique snapshot keys, exactly the selected key's entry passes the
warning condition, so the loop emits exactly one warning. -/
theorem warn_singleton (r : String) (prev : List (String × CameraStatus))
    (k : String) (st : CameraStatus) (entries : List (String × CameraStatus))
    (hnd : (entries.map Prod.fst).Nodup) (hmem : (k, st) ∈ entries)
    (hstop : st.preview_status = "stopped")
    (hrun : (lookupKey prev k).map CameraStatus.preview_status = some "running") :
    entries.filterMap
      (fun e => if warnCond (some k) prev e then some (e.1, r) else none) = [(k, r)] := by
  induction entries with
  | nil => simp at hmem
  | cons e rest ih =>
    simp only [List.map_cons, List.nodup_cons] at hnd
    rcases List.mem_cons.mp hmem with he | he
    · subst he
      have hc : warnCond (some k) prev (k, st) := ⟨rfl, hstop, hrun⟩
      have hkr : k ∉ rest.map Prod.fst := by simpa using hnd.1
      simp [List.filterMap_cons, hc, warn_not_mem_key r prev k rest hkr]
    · have hke : k ∈ rest.map Prod.fst := by
        simpa using List.mem_map_of_mem Prod.fst he
      have hc : ¬ warnCond (some k) prev e := fun hc => by
        have : k = e.1 := by simpa using hc.1
        exact hnd.1 (this ▸ hke)
      simp [List.filterMap_cons, hc, ih hnd.2 he]

theorem lookupKey_map_value (f : CameraStatus → CameraStatus)
    (m : List (String × CameraStatus)) (k : String) :
    lookupKey (m.map fun p => (p.1, f p.2)) k = (lookupKey m k).map f := by
  induction m with
  | nil => rfl
  | cons p rest ih =>
    by_cases hp : p.1 = k
    · simp [lookupKey, hp]
    · simpa [lookupKey, hp] using ih

/-- A general head lemma: reconciling a snapshot against a map that already
holds every snapshot entry returns the map unchanged and emits nothing. -/
theorem reconcile_self (sel : Option String) (prev : List (String × CameraStatus))
    (snap : Snapshot) (hval : ∀ e ∈ snap.cameras, lookupKey prev e.1 = some e.2) :
    reconcile sel prev snap = (prev, []) := by
  unfold reconcile
  refine Prod.ext ?_ ?_
  · rw [reconcileGo_fst]
    exact foldl_setKey_id _ _ hval
  · rw [reconcileGo_snd, List.nil_append]
    refine warn_filterMap_nil _ _ _ _ fun e he hc => ?_
    have h3 := hc.2.2
    rw [hval e he] at h3
    simp only [Option.map_some'] at h3
    rw [hc.2.1] at h3
    exact absurd (Option.some.inj h3) (by decide)

/-! ### Claim theorems -/

/-- C1 (amended): in the reconciliation of route.ts lines 385–397, a
running→stopped transition for a snapshot key emits exactly one
unexpected-stop warning precisely for the currently selected camera; the
warning carries the snapshot's `stop_reason`, with fallback `"Unknown
reason"` when the snapshot supplies none (or an empty one). -/
theorem reconcile_unexpected_stop (prev : StateMap) (snap : Snapshot) (k : String)
    (st st₀ : CameraStatus) (hnd : (snap.cameras.map Prod.fst).Nodup)
    (hmem : (k, st) ∈ snap.cameras) (hstop : st.preview_status = "stopped")
    (hprev : lookupKey prev k = some st₀) (hrun : st₀.preview_status = "running") :
    (reconcile (some k) prev snap).2 = [(k, strOr snap.stop_reason "Unknown reason")] := by
  unfold reconcile
  rw [reconcileGo_snd, List.nil_append]
  exact warn_singleton _ prev k st snap.cameras hnd hmem hstop
    (by rw [hprev]; simp [hrun])

/-- C1 witness: the spec's own scenario with A selected: previous `A`
running, snapshot `A` stopped with reason "overheat" emits exactly
`[(A, overheat)]`. -/
theorem reconcile_unexpected_stop_witness :
    (reconcile (some "A") [("A", stRun)]
      ⟨[("A", stStop)], some "overheat", none⟩).2 = [("A", "overheat")] := by
  have h := reconcile_unexpected_stop [("A", stRun)]
    ⟨[("A", stStop)], some "overheat", none⟩ "A" stStop stRun
    (by decide) (by decide) (by decide) (by decide) (by decide)
  simpa [strOr] using h

/-- C1 counterexample: the claim as stated fails twice over. A non-selected
key B with a running→stopped transition and no expected stop emits nothing
(the claim demands exactly one event); and with no `stop_reason` supplied the
emitted reason is `"Unknown reason"`, not `"unknown"`. -/
theorem reconcile_unexpected_stop_cex :
    (reconcile (some "A") [("B", stRun)]
      ⟨[("B", stStop)], some "overheat", none⟩).2 = []
    ∧ (reconcile (some "B") [("B", stRun)]
        ⟨[("B", stStop)], none, none⟩).2 = [("B", "Unknown reason")] := by
  exact ⟨rfl, rfl⟩

/-- C2 (amended): in the select variant's reconciliation (route.ts lines
385–397) a key absent from the snapshot keeps exactly its previous value and
a present key is overwritten with its full incoming status. The camera page
variant instead replaces the whole map (see the counterexample). -/
theorem reconcile_absent_keys (sel : Option String) (prev : StateMap)
    (snap : Snapshot) (k : String) :
    (k ∉ snap.cameras.map Prod.fst →
      lookupKey (reconcile sel prev snap).1 k = lookupKey prev k)
    ∧ ((snap.cameras.map Prod.fst).Nodup → ∀ v, (k, v) ∈ snap.cameras →
        lookupKey (reconcile sel prev snap).1 k = some v) := by
  constructor
  · intro hk
    unfold reconcile
    rw [reconcileGo_fst]
    exact lookupKey_foldl_not_mem _ _ _ hk
  · intro hnd v hv
    unfold reconcile
    rw [reconcileGo_fst]
    exact lookupKey_foldl_mem _ _ _ _ hnd hv

/-- C2 witness: reconciling a `{B}` snapshot over a `{A}` map retains A's
value and stores B's incoming value. -/
theorem reconcile_absent_keys_witness :
    lookupKey (reconcile none [("A", stRun)]
      ⟨[("B", stStop)], none, none⟩).1 "A" = some stRun
    ∧ lookupKey (reconcile none [("A", stRun)]
        ⟨[("B", stStop)], none, none⟩).1 "B" = some stStop := by
  refine ⟨(reconcile_absent_keys none [("A", stRun)]
      ⟨[("B", stStop)], none, none⟩ "A").1 (by decide),
    (reconcile_absent_keys none [("A", stRun)]
      ⟨[("B", stStop)], none, none⟩ "B").2 (by decide) stStop (by decide)⟩

/-- C2 counterexample: the camera page's handler (page.tsx line 96,
`setCameraStatuses(status.cameras)`) replaces the whole map: key A, present
before and absent from the snapshot, is dropped rather than retained. -/
theorem reconcile_absent_keys_cex :
    lookupKey [("A", stRun)] "A" = some stRun
    ∧ lookupKey (reconcilePage [("A", stRun)]
        ⟨[("B", stStop)], none, none⟩).1 "A" = none := by
  exact ⟨rfl, rfl⟩

/-- C4: the `onClose` downgrade keeps the key set (in order) and maps every
entry to a copy of itself with `preview_status` and `storage_status` forced
to "stopped" and every other field unchanged. -/
theorem closed_downgrade_correct (m : StateMap) (k : String) :
    (closedDowngrade m).map Prod.fst = m.map Prod.fst
    ∧ lookupKey (closedDowngrade m) k =
        (lookupKey m k).map
          (fun st => { st with preview_status := "stopped", storage_status := "stopped" }) := by
  constructor
  · unfold closedDowngrade
    rw [List.map_map]
    rfl
  · unfold closedDowngrade
    exact lookupKey_map_value
      (fun st => { st with preview_status := "stopped", storage_status := "stopped" }) m k

/-- C5 (amended): no expected-stop marker exists. `stopPreview` issues its
single request and writes nothing the reconciler reads, and the subsequent
reconciliation of a running→stopped snapshot for the selected camera emits
the unexpected-stop warning regardless of the just-issued stop command. -/
theorem stop_command_no_suppression (r : CmdResult) (prev : StateMap)
    (snap : Snapshot) (k : String) (st st₀ : CameraStatus)
    (hnd : (snap.cameras.map Prod.fst).Nodup) (hmem : (k, st) ∈ snap.cameras)
    (hstop : st.preview_status = "stopped") (hprev : lookupKey prev k = some st₀)
    (hrun : st₀.preview_status = "running") :
    (stopPreviewTrace r).requests = 1
    ∧ (reconcile (some k) prev snap).2 = [(k, strOr snap.stop_reason "Unknown reason")] := by
  refine ⟨by cases r <;> rfl, ?_⟩
  unfold reconcile
  rw [reconcileGo_snd, List.nil_append]
  exact warn_singleton _ prev k st snap.cameras hnd hmem hstop
    (by rw [hprev]; simp [hrun])

/-- C5 witness: after a successful local stop of selected camera B, the next
stopped snapshot still emits the warning with the snapshot's reason. -/
theorem stop_command_no_suppression_witness :
    (stopPreviewTrace (.err "x")).requests = 1
    ∧ (reconcile (some "B") [("B", stRun)]
        ⟨[("B", stStop)], some "manual", none⟩).2 = [("B", "manual")] := by
  have h := stop_command_no_suppression (.err "x") [("B", stRun)]
    ⟨[("B", stStop)], some "manual", none⟩ "B" stStop stRun
    (by decide) (by decide) (by decide) (by decide) (by decide)
  simpa [strOr] using h

/-- C5 counterexample: the exact run the claim rules out: a stop command for
the selected camera A was just issued (its trace is a single request with no
marker written), the snapshot then reports A stopped, and the reconciliation
emits an unexpected-stop warning anyway — the claim demands none. -/
theorem stop_command_no_suppression_cex :
    (stopPreviewTrace .ok).requests = 1
    ∧ (reconcile (some "A") [("A", stRun)]
        ⟨[("A", stStop)], none, none⟩).2 = [("A", "Unknown reason")] := by
  exact ⟨rfl, rfl⟩

/-- C9 (amended): applying the same snapshot twice is idempotent on the map
in both variants, and in the select variant the second application emits no
warning; in the camera page variant a snapshot carrying a truthy
`stop_reason` and `camera_key` re-emits its warning on the second application
(see the counterexample). -/
theorem reconcile_idempotent (sel : Option String) (prev : StateMap)
    (snap : Snapshot) (hnd : (snap.cameras.map Prod.fst).Nodup) :
    reconcile sel (reconcile sel prev snap).1 snap = ((reconcile sel prev snap).1, [])
    ∧ (reconcilePage (reconcilePage prev snap).1 snap).1 = (reconcilePage prev snap).1 := by
  constructor
  · refine reconcile_self sel _ snap fun e he => ?_
    have : lookupKey (reconcile sel prev snap).1 e.1 = some e.2 := by
      unfold reconcile
      rw [reconcileGo_fst]
      exact lookupKey_foldl_mem _ _ _ _ hnd (by simpa using he)
    exact this
  · rfl

/-- C9 witness: a concrete double application in the select variant: the
second pass returns the same map and emits nothing. -/
theorem reconcile_idempotent_witness :
    reconcile (some "A")
        (reconcile (some "A") [("A", stRun)] ⟨[("A", stStop)], some "overheat", none⟩).1
        ⟨[("A", stStop)], some "overheat", none⟩
      = ((reconcile (some "A") [("A", stRun)] ⟨[("A", stStop)], some "overheat", none⟩).1, [])
    ∧ (reconcilePage
        (reconcilePage [("A", stRun)] ⟨[("A", stStop)], some "overheat", none⟩).1
        ⟨[("A", stStop)], some "overheat", none⟩).1
      = (reconcilePage [("A", stRun)] ⟨[("A", stStop)], some "overheat", none⟩).1 :=
  reconcile_idempotent (some "A") [("A", stRun)]
    ⟨[("A", stStop)], some "overheat", none⟩ (by decide)

/-- C9 counterexample: in the camera page variant the second application of
the same snapshot (stop_reason "overheat", camera_key A) emits the warning
again, where the claim demands no event on the second application. -/
theorem reconcile_idempotent_cex :
    (reconcilePage
      (reconcilePage [("A", stRun)] ⟨[("A", stStop)], some "overheat", some "A"⟩).1
      ⟨[("A", stStop)], some "overheat", some "A"⟩).2 = [("A", "overheat")] := by
  exact rfl

theorem bitLen_le (f n m : Nat) (h : n < 2 ^ m) : bitLen f n ≤ m := by
  induction f generalizing n m with
  | zero => exact Nat.zero_le m
  | succ f ih =>
    unfold bitLen
    by_cases hn : n = 0
    · simp [hn]
    · rw [if_neg hn]
      cases m with
      | zero => omega
      | succ m' =>
        have h2 : n / 2 < 2 ^ m' := by
          have hp : 2 ^ (m' + 1) = 2 * 2 ^ m' := by ring
          omega
        have := ih (n / 2) m' h2
        omega

theorem lt_pow_bitLen (f : Nat) : ∀ n, n < 2 ^ f → n < 2 ^ bitLen f n := by
  induction f with
  | zero =>
    intro n hn
    have hz : n = 0 := by simpa using Nat.lt_one_iff.mp (by simpa using hn)
    simp [hz, bitLen]
  | succ f ih =>
    intro n hn
    by_cases hz : n = 0
    · simp [hz, bitLen]
    · have hstep : bitLen (f + 1) n = bitLen f (n / 2) + 1 := by
        conv_lhs => unfold bitLen
        rw [if_neg hz]
      rw [hstep]
      have hhalf : n / 2 < 2 ^ f := by
        have hp : 2 ^ (f + 1) = 2 * 2 ^ f := by ring
        omega
      have hrec : n / 2 < 2 ^ bitLen f (n / 2) := ih (n / 2) hhalf
      have hp : 2 ^ (bitLen f (n / 2) + 1) = 2 * 2 ^ bitLen f (n / 2) := by ring
      omega

/-- With adequate fuel, the guard of `jsParseDigits` is exactly the
double-overflow threshold: the computed bit length is at most `m` exactly
when the value is below `2^m` (in particular the result is independent of
the fuel). -/
theorem bitLen_le_iff (f n m : Nat) (hf : n < 2 ^ f) :
    bitLen f n ≤ m ↔ n < 2 ^ m := by
  constructor
  · intro h
    exact lt_of_lt_of_le (lt_pow_bitLen f n hf)
      (Nat.pow_le_pow_right (by norm_num) h)
  · exact bitLen_le f n m

theorem digit_toNat_le (c : Char) (h : isDigitCh c = true) :
    c.toNat - '0'.toNat ≤ 9 := by
  have h2 : '0' ≤ c ∧ c ≤ '9' := of_decide_eq_true h
  have h3 : c.toNat ≤ 57 := by
    have h9 := h2.2
    rw [Char.le_def] at h9
    exact h9
  have h0 : '0'.toNat = 48 := rfl
  omega

theorem digitsVal_foldl_lt (t : List Char) :
    ∀ acc, t.all isDigitCh = true →
      t.foldl (fun n c => 10 * n + (c.toNat - '0'.toNat)) acc
        < (acc + 1) * 10 ^ t.length := by
  induction t with
  | nil =>
    intro acc _
    simp
  | cons c t ih =>
    intro acc hall
    simp only [List.all_cons, Bool.and_eq_true] at hall
    have hd : c.toNat - '0'.toNat ≤ 9 := digit_toNat_le c hall.1
    have hrec := ih (10 * acc + (c.toNat - '0'.toNat)) hall.2
    have hmono : (10 * acc + (c.toNat - '0'.toNat) + 1) * 10 ^ t.length
        ≤ (acc + 1) * 10 ^ (t.length + 1) := by
      have hp : 10 ^ (t.length + 1) = 10 * 10 ^ t.length := by ring
      rw [hp]
      have hcoef : 10 * acc + (c.toNat - '0'.toNat) + 1 ≤ (acc + 1) * 10 := by omega
      calc (10 * acc + (c.toNat - '0'.toNat) + 1) * 10 ^ t.length
          ≤ ((acc + 1) * 10) * 10 ^ t.length :=
            Nat.mul_le_mul_right _ hcoef
        _ = (acc + 1) * (10 * 10 ^ t.length) := by ring
    simp only [List.foldl_cons, List.length_cons]
    exact lt_of_lt_of_le hrec hmono

/-- The fuel `tokenVal` passes down always exceeds the bit length of the
digit run's value: a run of `len` digits is below `10^len ≤ 2^(4*len)`. -/
theorem digitsVal_lt_two_pow (t : List Char) (h : t.all isDigitCh = true) :
    digitsVal t < 2 ^ (4 * t.length + 64) := by
  have h10 : digitsVal t < 10 ^ t.length := by
    simpa using digitsVal_foldl_lt t 0 h
  have h16 : (10 : Nat) ^ t.length ≤ 2 ^ (4 * t.length) := by
    calc (10 : Nat) ^ t.length ≤ 16 ^ t.length :=
          Nat.pow_le_pow_left (by norm_num) t.length
      _ = (2 ^ 4) ^ t.length := by norm_num
      _ = 2 ^ (4 * t.length) := by rw [← Nat.pow_mul]
  have h64 : (2 : Nat) ^ (4 * t.length) ≤ 2 ^ (4 * t.length + 64) :=
    Nat.pow_le_pow_right (by norm_num) (by omega)
  omega

/-- C3 (amended): with the host collation abstracted as `lc`, the comparator
orders every folder before every file whatever the names; entries of the
same kind compare purely by natural order of their names; a numeric token
whose exact value lies below 2^53 is parsed to exactly that value, so the
claimed integer comparison is faithful in that range; and under code-point
collation the two specified sorts come out in natural order. Digit runs at
or above 2^53 round to doubles, so distinct runs can parse equal and the
decision falls through to later tokens or the tie-breaks (see the
counterexample). -/
theorem listing_order_correct :
    (∀ (lc : List Char → List Char → Int) (a b : FileItem),
      a.type = "folder" → b.type = "file" →
        compareItems lc a b < 0 ∧ 0 < compareItems lc b a)
    ∧ (∀ (lc : List Char → List Char → Int) (a b : FileItem), a.type = b.type →
        compareItems lc a b = natCompareNames lc a.name.data b.name.data)
    ∧ (∀ t : List Char, t ≠ [] → t.all isDigitCh = true → digitsVal t < 2 ^ 53 →
        tokenVal t = some (.finite (digitsVal t)))
    ∧ sortItems (compareItems lexCompare)
        [⟨"img2", "p2", "file"⟩, ⟨"img10", "p10", "file"⟩, ⟨"img1", "p1", "file"⟩]
      = [⟨"img1", "p1", "file"⟩, ⟨"img2", "p2", "file"⟩, ⟨"img10", "p10", "file"⟩]
    ∧ sortItems (compareItems lexCompare)
        [⟨"b", "b", "file"⟩, ⟨"a10", "a10", "file"⟩, ⟨"a2", "a2", "file"⟩]
      = [⟨"a2", "a2", "file"⟩, ⟨"a10", "a10", "file"⟩, ⟨"b", "b", "file"⟩] := by
  refine ⟨?_, ?_, ?_, ?_, ?_⟩
  · intro lc a b ha hb
    have hne : a.type ≠ b.type := by rw [ha, hb]; decide
    have hne' : b.type ≠ a.type := fun h => hne h.symm
    have hbf : ¬ b.type = "folder" := by rw [hb]; decide
    constructor
    · unfold compareItems
      rw [if_pos hne, if_pos ha]
      decide
    · unfold compareItems
      rw [if_pos hne', if_neg hbf]
      decide
  · intro lc a b hab
    unfold compareItems
    rw [if_neg (by simp [hab])]
  · intro t hne hall hlt
    have hb : bitLen (4 * t.length + 64) (digitsVal t) ≤ 53 :=
      bitLen_le _ _ _ hlt
    have hb' : bitLen (4 * t.length + 64) (digitsVal t) ≤ 1024 :=
      le_trans hb (by norm_num)
    unfold tokenVal
    rw [if_pos ⟨hne, hall⟩]
    unfold jsParseDigits roundNat
    simp [hb, hb']
  · rfl
  · rfl

/-- C3 witness: the folder "sub" sorts before the file "a.jpg" under any
collation, two files compare exactly by the natural order of their names,
and a small digit run parses exactly. -/
theorem listing_order_correct_witness :
    compareItems lexCompare ⟨"sub", "sub", "folder"⟩ ⟨"a.jpg", "a.jpg", "file"⟩ < 0
    ∧ compareItems lexCompare ⟨"img2", "x", "file"⟩ ⟨"img10", "y", "file"⟩
        = natCompareNames lexCompare "img2".data "img10".data
    ∧ tokenVal "42".data = some (.finite (digitsVal "42".data)) := by
  exact ⟨(listing_order_correct.1 lexCompare ⟨"sub", "sub", "folder"⟩
      ⟨"a.jpg", "a.jpg", "file"⟩ rfl rfl).1,
    listing_order_correct.2.1 lexCompare ⟨"img2", "x", "file"⟩ ⟨"img10", "y", "file"⟩ rfl,
    listing_order_correct.2.2.1 "42".data (by decide) (by decide) (by decide)⟩

/-- C3 counterexample: `parseInt` rounds both "9999999999999999" and
"10000000000000000" to the double 1e16, so the program falls through to the
full-name tie-break and orders "a10000000000000000" before
"a9999999999999999" — the opposite of the claim's exact-integer token
comparison (`specNatCompareNames`, the claim's own algorithm, orders them
the other way). -/
theorem listing_order_cex :
    0 < natCompareNames lexCompare
        "a9999999999999999".data "a10000000000000000".data
    ∧ specNatCompareNames "a9999999999999999".data "a10000000000000000".data < 0 := by
  exact ⟨by decide, by decide⟩

/-! ### Lemmas about the frame decoder -/

theorem startsWithSeq_append_self (l t : List Char) :
    startsWithSeq l (l ++ t) = true := by
  induction l with
  | nil => rfl
  | cons a as ih => simp [startsWithSeq, ih]

theorem startsWithSeq_cons_ne (a b : Char) (as bs : List Char) (h : ¬ a = b) :
    startsWithSeq (a :: as) (b :: bs) = false := by
  simp [startsWithSeq, h]

theorem firstIdxO_of_sw {pat s : List Char} (h : startsWithSeq pat s = true) :
    firstIdxO pat s = some 0 := by
  cases s <;> simp [firstIdxO, h]

theorem firstIdxO_cons_neg {pat : List Char} {c : Char} {cs : List Char}
    (h : startsWithSeq pat (c :: cs) = false) :
    firstIdxO pat (c :: cs) = (firstIdxO pat cs).map (· + 1) := by
  simp [firstIdxO, h]

theorem firstIdxO_head_notin {r : Char} {pat' : List Char} (s : List Char)
    (h : r ∉ s) : firstIdxO (r :: pat') s = none := by
  induction s with
  | nil => rfl
  | cons c cs ih =>
    simp only [List.mem_cons, not_or] at h
    simp [firstIdxO, startsWithSeq_cons_ne r c _ _ h.1, ih h.2]

theorem firstIdxO_append_notin {r : Char} {pat' : List Char} (xs ys : List Char)
    (hx : r ∉ xs) :
    firstIdxO (r :: pat') (xs ++ ys)
      = (firstIdxO (r :: pat') ys).map (· + xs.length) := by
  induction xs with
  | nil => cases h : firstIdxO (r :: pat') ys <;> simp [h]
  | cons x xs ih =>
    simp only [List.mem_cons, not_or] at hx
    cases h : firstIdxO (r :: pat') ys with
    | none => simp [firstIdxO, startsWithSeq_cons_ne r x _ _ hx.1, ih hx.2, h]
    | some i =>
      simp [firstIdxO, startsWithSeq_cons_ne r x _ _ hx.1, ih hx.2, h, Nat.add_assoc]

theorem firstIdxO_crlf_notin (s : List Char) (h : '\r' ∉ s) :
    firstIdxO crlf s = none :=
  firstIdxO_head_notin s h

theorem firstIdxO_crlf_append (xs ys : List Char) (hx : '\r' ∉ xs) :
    firstIdxO crlf (xs ++ ys) = (firstIdxO crlf ys).map (· + xs.length) :=
  firstIdxO_append_notin xs ys hx

theorem firstIdxO_crlf2_append (xs ys : List Char) (hx : '\r' ∉ xs) :
    firstIdxO crlf2 (xs ++ ys) = (firstIdxO crlf2 ys).map (· + xs.length) :=
  firstIdxO_append_notin xs ys hx

theorem joinSep_cons_shape (sep : List Char) (h : List Char)
    (t : List (List Char)) : ∃ rest, joinSep sep (h :: t) = h ++ rest := by
  cases t with
  | nil => exact ⟨[], by simp [joinSep]⟩
  | cons h' t' => exact ⟨sep ++ joinSep sep (h' :: t'), by simp [joinSep]⟩

theorem firstIdxO_crlf2_after_sep (a : Char) (zs : List Char) (ha : ¬ a = '\r') :
    firstIdxO crlf2 ('\r' :: '\n' :: a :: zs)
      = (firstIdxO crlf2 (a :: zs)).map (· + 2) := by
  have hba : ('\r' == a) = false := beq_eq_false_iff_ne.mpr fun hh => ha hh.symm
  have hbn : ('\r' == '\n') = false := by decide
  have h1 : startsWithSeq crlf2 ('\r' :: '\n' :: a :: zs) = false := by
    simp [crlf2, startsWithSeq, hba]
  have h2 : startsWithSeq crlf2 ('\n' :: a :: zs) = false := by
    simp [crlf2, startsWithSeq, hbn]
  rw [firstIdxO_cons_neg h1, firstIdxO_cons_neg h2]
  cases h : firstIdxO crlf2 (a :: zs) with
  | none => simp [h]
  | some i => simp [h]

/-- The first occurrence of the blank-line sentinel in a well-formed frame is
exactly at the end of the header block. -/
theorem firstIdxO_crlf2_encode (hs : List (List Char)) (p : List Char)
    (hcond : ∀ h ∈ hs, h ≠ [] ∧ '\r' ∉ h) :
    firstIdxO crlf2 (joinSep crlf hs ++ (crlf2 ++ p))
      = some (joinSep crlf hs).length := by
  induction hs with
  | nil =>
    simpa [joinSep] using firstIdxO_of_sw (startsWithSeq_append_self crlf2 p)
  | cons h t ih =>
    cases t with
    | nil =>
      have hh := hcond h (List.mem_cons_self h [])
      rw [show joinSep crlf [h] = h from rfl,
        firstIdxO_crlf2_append h (crlf2 ++ p) hh.2,
        firstIdxO_of_sw (startsWithSeq_append_self crlf2 p)]
      simp
    | cons h' t' =>
      have hh := hcond h (by simp)
      have hh' := hcond h' (by simp)
      obtain ⟨rest, hrest⟩ := joinSep_cons_shape crlf h' t'
      obtain ⟨a, h'tl, ha⟩ : ∃ a tl, h' = a :: tl := by
        cases h' with
        | nil => exact absurd rfl hh'.1
        | cons a tl => exact ⟨a, tl, rfl⟩
      have hanr : ¬ a = '\r' := by
        intro hcon
        exact hh'.2 (by rw [ha, hcon]; exact List.mem_cons_self _ _)
      have hIH := ih fun x hx => hcond x (List.mem_cons_of_mem h hx)
      have hshape : joinSep crlf (h' :: t') ++ (crlf2 ++ p)
          = a :: (h'tl ++ rest ++ (crlf2 ++ p)) := by
        rw [hrest, ha]
        simp
      rw [show joinSep crlf (h :: h' :: t')
            = h ++ (crlf ++ joinSep crlf (h' :: t')) from by simp [joinSep]]
      rw [List.append_assoc, firstIdxO_crlf2_append h _ hh.2]
      rw [show crlf ++ joinSep crlf (h' :: t') ++ (crlf2 ++ p)
            = '\r' :: '\n' :: (joinSep crlf (h' :: t') ++ (crlf2 ++ p))
          from by simp [crlf]]
      rw [hshape, firstIdxO_crlf2_after_sep a _ hanr, ← hshape, hIH]
      simp only [Option.map_some', List.length_append, List.length_cons]
      congr 1
      simp [crlf]
      omega

/-- Splitting the header block on CRLF recovers exactly the header lines. -/
theorem splitSepAux_joinSep (hs : List (List Char))
    (hcond : ∀ h ∈ hs, h ≠ [] ∧ '\r' ∉ h) (hne : hs ≠ []) :
    ∀ fuel, (joinSep crlf hs).length < fuel →
      splitSepAux crlf fuel (joinSep crlf hs) = hs := by
  induction hs with
  | nil => exact absurd rfl hne
  | cons h t ih =>
    cases t with
    | nil =>
      intro fuel _
      have hh := hcond h (by simp)
      have hnone : firstIdxO crlf h = none := firstIdxO_crlf_notin h hh.2
      cases fuel with
      | zero => rfl
      | succ f => simp [splitSepAux, hnone, joinSep]
    | cons h' t' =>
      intro fuel hfuel
      have hh := hcond h (by simp)
      have hJ : joinSep crlf (h :: h' :: t')
          = h ++ (crlf ++ joinSep crlf (h' :: t')) := by
        simp [joinSep]
      have hidx : firstIdxO crlf (joinSep crlf (h :: h' :: t')) = some h.length := by
        rw [hJ, firstIdxO_crlf_append h _ hh.2,
          firstIdxO_of_sw (startsWithSeq_append_self crlf _)]
        simp
      cases fuel with
      | zero => exact absurd hfuel (by omega)
      | succ f =>
        have htake : (joinSep crlf (h :: h' :: t')).take h.length = h := by
          rw [hJ]
          exact List.take_left h _
        have hdrop : (joinSep crlf (h :: h' :: t')).drop (h.length + crlf.length)
            = joinSep crlf (h' :: t') := by
          rw [hJ, ← List.append_assoc]
          have hln : (h ++ crlf).length = h.length + crlf.length :=
            List.length_append h crlf
          rw [← hln]
          exact List.drop_left (h ++ crlf) _
        have hlen : (joinSep crlf (h' :: t')).length < f := by
          have h1 : (joinSep crlf (h :: h' :: t')).length
              = h.length + 2 + (joinSep crlf (h' :: t')).length := by
            rw [hJ]
            simp [crlf]
            omega
          omega
        simp only [splitSepAux, hidx, htake, hdrop]
        rw [ih (fun x hx => hcond x (List.mem_cons_of_mem h hx)) (by simp) f hlen]

/-- The header scan returns the value of the first header matched by
`find?` on the key field. -/
theorem scanKey_find (hs : List (List Char)) (kh : List Char)
    (hfind : hs.find? (fun h => startsWithSeq keyField h) = some kh) :
    scanKey hs = (jsSplit kh colonSp).getD 1 [] := by
  induction hs with
  | nil => simp at hfind
  | cons h t ih =>
    cases hp : startsWithSeq keyField h with
    | true =>
      rw [List.find?_cons_of_pos _ hp] at hfind
      cases hfind
      simp [scanKey, hp]
    | false =>
      rw [List.find?_cons_of_neg _ (by simp [hp])] at hfind
      simp [scanKey, hp, ih hfind]

theorem jsSliceTo_exact (xs ys : List Char) :
    jsSliceTo (xs ++ ys) ((xs.length : Nat) : Int) = xs := by
  unfold jsSliceTo
  rw [if_neg (by omega)]
  simp [List.take_left]

theorem jsSliceFrom_exact (xs ys : List Char) :
    jsSliceFrom (xs ++ ys) ((xs.length : Nat) : Int) = ys := by
  unfold jsSliceFrom
  rw [if_neg (by omega)]
  simp [List.drop_left]

/-- C6: a binary frame laid out as nonempty CR-free header lines joined by
CRLF, the blank-line sentinel, then the raw payload, where the first header
carrying the key field is `X-Camera-Key: cam1`, decodes to exactly the key
"cam1" and exactly the payload, byte for byte; scanning stops at that first
matching header. -/
theorem frame_roundtrip (hs : List (List Char)) (payload : List Char)
    (hcond : ∀ h ∈ hs, h ≠ [] ∧ '\r' ∉ h)
    (hkey : hs.find? (fun h => startsWithSeq keyField h)
      = some ("X-Camera-Key: cam1".data)) :
    decodeFrame (encodeFrame hs payload) = ("cam1", payload) := by
  have hne : hs ≠ [] := by
    rintro rfl
    simp at hkey
  have hidx : firstIdxO crlf2 (joinSep crlf hs ++ (crlf2 ++ payload)) =
      some (joinSep crlf hs).length := firstIdxO_crlf2_encode hs payload hcond
  have hmsg : encodeFrame hs payload = joinSep crlf hs ++ (crlf2 ++ payload) := by
    unfold encodeFrame
    rw [List.append_assoc]
  have hjsidx : jsIndexOf (encodeFrame hs payload) crlf2
      = ((joinSep crlf hs).length : Int) := by
    rw [hmsg]
    simp [jsIndexOf, hidx]
  have hslice : jsSliceTo (encodeFrame hs payload) ((joinSep crlf hs).length : Int)
      = joinSep crlf hs := by
    rw [hmsg]
    exact jsSliceTo_exact _ _
  have hsplit : jsSplit (joinSep crlf hs) crlf = hs := by
    unfold jsSplit
    exact splitSepAux_joinSep hs hcond hne _ (Nat.lt_succ_self _)
  have hscan : scanKey hs = "cam1".data := by
    rw [scanKey_find hs _ hkey]
    rfl
  have hpay : jsSliceFrom (encodeFrame hs payload)
      (((joinSep crlf hs).length : Int) + 4) = payload := by
    have hlen : ((joinSep crlf hs).length : Int) + 4
        = (((joinSep crlf hs ++ crlf2).length : Nat) : Int) := by
      rw [List.length_append]
      simp [crlf2]
    rw [show encodeFrame hs payload
        = (joinSep crlf hs ++ crlf2) ++ payload from rfl, hlen]
    exact jsSliceFrom_exact _ _
  show (String.mk (scanKey (jsSplit (jsSliceTo (encodeFrame hs payload)
          (jsIndexOf (encodeFrame hs payload) crlf2)) crlf)),
        jsSliceFrom (encodeFrame hs payload)
          (jsIndexOf (encodeFrame hs payload) crlf2 + 4)) = ("cam1", payload)
  rw [hjsidx, hslice, hsplit, hscan, hpay]

/-- C6 witness: a concrete two-header frame whose payload itself contains the
sentinel bytes round-trips byte-for-byte. -/
theorem frame_roundtrip_witness :
    decodeFrame (encodeFrame
        ["Content-Type: image/jpeg".data, "X-Camera-Key: cam1".data]
        "ab\r\n\r\ncd".data)
      = ("cam1", "ab\r\n\r\ncd".data) :=
  frame_roundtrip
    ["Content-Type: image/jpeg".data, "X-Camera-Key: cam1".data]
    "ab\r\n\r\ncd".data (by decide) (by decide)

/-! ### Lemmas about the discovery retry loop -/

theorem fetchTrace_ok (resp : Nat → FetchResult) (delay attempt left : Nat)
    (data : List Camera) (h : resp attempt = .ok data) :
    fetchTrace resp delay attempt left = okTrace data := by
  cases left with
  | zero =>
    conv_lhs => unfold fetchTrace
    rw [h]
  | succ left =>
    conv_lhs => unfold fetchTrace
    rw [h]

theorem fetchTrace_err_zero (resp : Nat → FetchResult) (delay attempt : Nat)
    (m : String) (h : resp attempt = .err m) :
    fetchTrace resp delay attempt 0 = ⟨1, [], [some m], []⟩ := by
  conv_lhs => unfold fetchTrace
  rw [h]

theorem fetchTrace_err_succ (resp : Nat → FetchResult) (delay attempt left : Nat)
    (m : String) (h : resp attempt = .err m) :
    fetchTrace resp delay attempt (left + 1) =
      ⟨(fetchTrace resp delay (attempt + 1) left).requests + 1,
       (fetchTrace resp delay (attempt + 1) left).camerasSet,
       (fetchTrace resp delay (attempt + 1) left).errorsSet,
       delay :: (fetchTrace resp delay (attempt + 1) left).delays⟩ := by
  conv_lhs => unfold fetchTrace
  rw [h]

theorem fetchTrace_bound (resp : Nat → FetchResult) (delay : Nat) :
    ∀ left attempt, (fetchTrace resp delay attempt left).requests ≤ left + 1
      ∧ ∀ d ∈ (fetchTrace resp delay attempt left).delays, d = delay := by
  intro left
  induction left with
  | zero =>
    intro attempt
    cases h : resp attempt with
    | ok data =>
      rw [fetchTrace_ok resp delay attempt 0 data h]
      unfold okTrace
      split <;> simp
    | err m =>
      rw [fetchTrace_err_zero resp delay attempt m h]
      simp
  | succ left ih =>
    intro attempt
    cases h : resp attempt with
    | ok data =>
      rw [fetchTrace_ok resp delay attempt (left + 1) data h]
      unfold okTrace
      split <;> simp
    | err m =>
      rw [fetchTrace_err_succ resp delay attempt left m h]
      constructor
      · have := (ih (attempt + 1)).1
        simp only []
        omega
      · intro d hd
        simp only [List.mem_cons] at hd
        rcases hd with hd | hd
        · exact hd
        · exact (ih (attempt + 1)).2 d hd

/-- C7 (amended): discovery issues at most 3 attempts with 1000 ms between
consecutive attempts; an ok response with a non-empty array stores that exact
array once (hence duplicate-free whenever the response is) and ends the loop;
an ok response with an empty array ends the loop too, surfacing the
no-cameras error instead of setting the list (see the counterexample); three
failures surface the last failure's message; and the other command
operations each issue exactly one request and are never retried. -/
theorem discovery_retry (resp : Nat → FetchResult) (e1 e2 e3 : String)
    (data : List Camera) :
    ((fetchCameras resp).requests ≤ 3
      ∧ ∀ d ∈ (fetchCameras resp).delays, d = 1000)
    ∧ (resp 1 = .ok data → data ≠ [] →
        fetchCameras resp = ⟨1, [data], [none], []⟩)
    ∧ (resp 1 = .err e1 → resp 2 = .err e2 → resp 3 = .ok data → data ≠ [] →
        fetchCameras resp = ⟨3, [data], [none], [1000, 1000]⟩)
    ∧ (resp 1 = .err e1 → resp 2 = .err e2 → resp 3 = .err e3 →
        fetchCameras resp = ⟨3, [], [some e3], [1000, 1000]⟩)
    ∧ (∀ r : CmdResult, (startPreviewTrace r).requests = 1
        ∧ (stopPreviewTrace r).requests = 1 ∧ (captureImageTrace r).requests = 1) := by
  have hBase : fetchCameras resp = fetchTrace resp 1000 1 2 := rfl
  refine ⟨?_, ?_, ?_, ?_, ?_⟩
  · have h := fetchTrace_bound resp 1000 2 1
    rw [hBase]
    exact ⟨h.1, h.2⟩
  · intro h1 hne
    have hl : 0 < data.length := List.length_pos.mpr hne
    rw [hBase, fetchTrace_ok resp 1000 1 2 data h1]
    unfold okTrace
    rw [if_pos hl]
  · intro h1 h2 h3 hne
    have hl : 0 < data.length := List.length_pos.mpr hne
    have s3 : fetchTrace resp 1000 3 0 = okTrace data :=
      fetchTrace_ok resp 1000 3 0 data h3
    have s2 : fetchTrace resp 1000 2 1 =
        ⟨(fetchTrace resp 1000 3 0).requests + 1,
         (fetchTrace resp 1000 3 0).camerasSet,
         (fetchTrace resp 1000 3 0).errorsSet,
         1000 :: (fetchTrace resp 1000 3 0).delays⟩ :=
      fetchTrace_err_succ resp 1000 2 0 e2 h2
    have s1 : fetchTrace resp 1000 1 2 =
        ⟨(fetchTrace resp 1000 2 1).requests + 1,
         (fetchTrace resp 1000 2 1).camerasSet,
         (fetchTrace resp 1000 2 1).errorsSet,
         1000 :: (fetchTrace resp 1000 2 1).delays⟩ :=
      fetchTrace_err_succ resp 1000 1 1 e1 h1
    rw [hBase, s1, s2, s3]
    unfold okTrace
    rw [if_pos hl]
  · intro h1 h2 h3
    have s3 : fetchTrace resp 1000 3 0 = ⟨1, [], [some e3], []⟩ :=
      fetchTrace_err_zero resp 1000 3 e3 h3
    have s2 : fetchTrace resp 1000 2 1 =
        ⟨(fetchTrace resp 1000 3 0).requests + 1,
         (fetchTrace resp 1000 3 0).camerasSet,
         (fetchTrace resp 1000 3 0).errorsSet,
         1000 :: (fetchTrace resp 1000 3 0).delays⟩ :=
      fetchTrace_err_succ resp 1000 2 0 e2 h2
    have s1 : fetchTrace resp 1000 1 2 =
        ⟨(fetchTrace resp 1000 2 1).requests + 1,
         (fetchTrace resp 1000 2 1).camerasSet,
         (fetchTrace resp 1000 2 1).errorsSet,
         1000 :: (fetchTrace resp 1000 2 1).delays⟩ :=
      fetchTrace_err_succ resp 1000 1 1 e1 h1
    rw [hBase, s1, s2, s3]
  · intro r
    cases r <;> exact ⟨rfl, rfl, rfl⟩

/-- C7 witness: two failures followed by a success store the device list
exactly once after three requests and two 1000 ms waits. -/
theorem discovery_retry_witness :
    fetchCameras (fun n => if n = 3 then .ok [camFix] else .err "boom")
      = ⟨3, [[camFix]], [none], [1000, 1000]⟩ :=
  (discovery_retry (fun n => if n = 3 then .ok [camFix] else .err "boom")
      "boom" "boom" "x" [camFix]).2.2.1 rfl rfl rfl (by decide)

/-- C7 counterexample: a first attempt that succeeds with an empty array
never sets the device list (the claim demands it be set exactly once on any
successful attempt); the loop stops anyway and surfaces the no-cameras
error. -/
theorem discovery_retry_cex :
    fetchCameras (fun _ => .ok []) = ⟨1, [], [some noCamerasMsg], []⟩ := rfl

/-- C8 (amended): `deleteFolder` is confirmation-gated with optimistic
removal on success and an untouched listing plus surfaced error on failure;
`deleteFile` however issues its request with no confirmation step and on
success re-fetches the directory instead of filtering the listing. -/
theorem delete_behavior (items : List FileItem) (p m : String) :
    deleteFolderRun false .ok items p = ⟨0, items, [], false⟩
    ∧ deleteFolderRun false (.err m) items p = ⟨0, items, [], false⟩
    ∧ deleteFolderRun true .ok items p
        = ⟨1, items.filter (fun it => it.path ≠ p), [], false⟩
    ∧ deleteFolderRun true (.err m) items p = ⟨1, items, [m], false⟩
    ∧ deleteFileRun .ok items p = ⟨1, items, [], true⟩
    ∧ deleteFileRun (.err m) items p = ⟨1, items, [m], false⟩ :=
  ⟨rfl, rfl, rfl, rfl, rfl, rfl⟩

/-- C8 counterexample: a successful `deleteFile` run issues its request (no
confirmation input exists for it), leaves the deleted entry in the local
listing, and triggers a full re-fetch — the claim demands a confirmation
step and an optimistic removal without re-fetch. -/
theorem delete_behavior_cex :
    (deleteFileRun .ok [⟨"a.jpg", "sub/a.jpg", "file"⟩] "sub/a.jpg").requests = 1
    ∧ (deleteFileRun .ok [⟨"a.jpg", "sub/a.jpg", "file"⟩] "sub/a.jpg").itemsAfter
        = [⟨"a.jpg", "sub/a.jpg", "file"⟩]
    ∧ (deleteFileRun .ok [⟨"a.jpg", "sub/a.jpg", "file"⟩] "sub/a.jpg").refetch = true :=
  ⟨rfl, rfl, rfl⟩

/-- C10: a binary frame whose decoded key is a displayed camera (a
registered `<img>` ref in the page variant, the selected camera with its ref
in the select variant) flips that key's `preview_status` to "running" in the
local map, leaving every other key untouched — no status snapshot is
involved anywhere in the frame path. -/
theorem frame_marks_running (displayed : List String) (m : StateMap)
    (msg : List Char) (selected : Option String) (k : String) (st : CameraStatus)
    (hdec : (decodeFrame msg).1 = k) (hk : k ≠ "") (hdisp : k ∈ displayed)
    (hlook : lookupKey m k = some st) :
    lookupKey (pageFrameStep displayed m msg) k
      = some { st with preview_status := "running" }
    ∧ (∀ k', k' ≠ k →
        lookupKey (pageFrameStep displayed m msg) k' = lookupKey m k')
    ∧ (some k = selected →
        lookupKey (selFrameStep selected true m msg) k
          = some { st with preview_status := "running" }) := by
  have hstep : pageFrameStep displayed m msg = frameUpdate m k := by
    unfold pageFrameStep
    rw [hdec, if_pos ⟨hk, hdisp⟩]
  have hupd : frameUpdate m k
      = setKey m k { st with preview_status := "running" } := by
    unfold frameUpdate
    rw [hlook]
  refine ⟨?_, ?_, ?_⟩
  · rw [hstep, hupd]
    exact lookupKey_setKey_self m k _
  · intro k' hk'
    rw [hstep, hupd]
    exact lookupKey_setKey_ne m k k' _ hk'
  · intro hsel
    have hsstep : selFrameStep selected true m msg = frameUpdate m k := by
      unfold selFrameStep
      rw [hdec, if_pos ⟨hsel, rfl⟩]
    rw [hsstep, hupd]
    exact lookupKey_setKey_self m k _

/-- C10 witness: one frame for `cam1` flips it from locally stopped to
running in both variants, with no snapshot anywhere. -/
theorem frame_marks_running_witness :
    lookupKey (pageFrameStep ["cam1"] [("cam1", stStop)]
        (encodeFrame ["X-Camera-Key: cam1".data] [])) "cam1"
      = some { stStop with preview_status := "running" }
    ∧ lookupKey (selFrameStep (some "cam1") true [("cam1", stStop)]
        (encodeFrame ["X-Camera-Key: cam1".data] [])) "cam1"
      = some { stStop with preview_status := "running" } := by
  have h := frame_marks_running ["cam1"] [("cam1", stStop)]
    (encodeFrame ["X-Camera-Key: cam1".data] []) (some "cam1") "cam1" stStop
    (by decide) (by decide) (by decide) (by decide)
  exact ⟨h.1, h.2.2 rfl⟩

end WebcamFrontend
